import Mathlib

/-!
# A shallow embedding of the MCDC particle-tracking core (`mcdc/simulator.py`)

Machine floats are embedded as rationals (`ℚ`); `np.inf` is embedded as the
top element of `WithTop ℚ`.  External collaborator modules that are not part
of the source tree (`mcdc/random.py`, `mcdc/mpi.py`, `mcdc/particle.py`,
`mcdc/constant.py`, `mcdc/distribution.py`, `mcdc/misc.py`) are modelled from
the specification where a definition needs them; every such definition says so
in its doc comment.
-/

namespace MCDC

/-- `Point` from `mcdc/point.py` (modelled from the spec: a 3-vector of
coordinates; the simulator uses componentwise `+` and scaling by a scalar). -/
structure Point where
  x : ℚ
  y : ℚ
  z : ℚ
deriving DecidableEq, Repr

/-- Componentwise addition of points, as used by `P.pos += P.dir*d`. -/
def Point.add (a b : Point) : Point := ⟨a.x + b.x, a.y + b.y, a.z + b.z⟩

/-- Scaling of a point by a scalar, as used by `P.dir*d`. -/
def Point.smul (a : Point) (d : ℚ) : Point := ⟨a.x * d, a.y * d, a.z * d⟩

/-- `SMALL` from `mcdc/constant.py` (modelled from the spec: the kick size
`ε_kick = 1e-10`). -/
def SMALL : ℚ := 1 / 10 ^ 10

/-- The particle record from `mcdc/particle.py` (modelled from the spec §3:
position, direction, group, time, weight, alive flag, cell reference, hit
surface reference, census time index, per-step distance, and the shadow
"previous state" `(wgt_old, g_old, cell_old)` captured at step entry).
Cells and surfaces are referenced by index here. -/
structure Particle where
  pos : Point
  dir : Point
  g : ℕ
  time : ℚ
  wgt : ℚ
  cell : Option ℕ
  time_idx : ℕ
  alive : Bool := true
  speed : ℚ := 0
  distance : ℚ := 0
  surf : Option ℕ := none
  wgt_old : ℚ := 0
  g_old : ℕ := 0
  cell_old : Option ℕ := none
deriving DecidableEq, Repr

/-- The constructor call `Particle(pos, dir, g, time, wgt, cell, time_idx)`
used at `simulator.py:556` (modelled from the spec: a freshly banked particle
is alive with zero accumulated distance). -/
def Particle.create (pos dir : Point) (g : ℕ) (time wgt : ℚ)
    (cell : Option ℕ) (time_idx : ℕ) : Particle :=
  { pos := pos, dir := dir, g := g, time := time, wgt := wgt,
    cell := cell, time_idx := time_idx }

/-- `P.save_previous_state()` called at `simulator.py:323` (modelled from the
spec §4.3 step 1: record `(w, g, cell)` into the shadow slot and reset the
per-step `distance` to zero). -/
def Particle.save_previous_state (P : Particle) : Particle :=
  { P with wgt_old := P.wgt, g_old := P.g, cell_old := P.cell, distance := 0 }

/-- `Simulator.move_particle` (`simulator.py:438`): 4-D move by distance `d`
along the current direction, advancing time by `d / speed` and accumulating
the per-step distance. -/
def move_particle (P : Particle) (d : ℚ) : Particle :=
  { P with pos := P.pos.add (P.dir.smul d),
           time := P.time + d / P.speed,
           distance := P.distance + d }

/-!
## RNG streams (`mcdc/random.py`, not under `src/`)

Modelled from the spec §4.1: a linear-congruential generator over a 63-bit
modulus whose `skip_ahead(n, rebase)` advances BY `n` histories FROM the base
seed (that is, by `n · stride` draws, not relative to the current state); with
`rebase=True` the resulting state becomes the new base.  The multiplier,
increment and stride are left as parameters: the claims hold for every choice.
-/

/-- The LCG modulus `2^63` (modelled from the spec: "63-bit
linear-congruential generator"). -/
def lcg_mod : ℕ := 2 ^ 63

/-- One LCG draw: `s ↦ (g·s + c) mod 2^63` (modelled from the spec §4.1). -/
def lcg_step (g c s : ℕ) : ℕ := (g * s + c) % lcg_mod

/-- `n` LCG draws from state `s`.  The source uses the closed form
`(g^n, c·(g^n−1)/(g−1)) mod m`, which computes exactly this `n`-fold
iterate (modelled from the spec §4.1). -/
def lcg_advance (g c : ℕ) : ℕ → ℕ → ℕ
  | 0, s => s
  | n + 1, s => lcg_advance g c n (lcg_step g c s)

/-- RNG state: the current state together with the rebase base seed
(modelled from the spec §4.1). -/
structure RNGState where
  base : ℕ
  state : ℕ
deriving DecidableEq, Repr

/-- `RandomLCG.skip_ahead(n, rebase)` (modelled from the spec §4.1): advance
by `n · stride` draws from the BASE seed; if `rebase`, the resulting state
becomes the new base. -/
def skip_ahead (g c stride n : ℕ) (rebase : Bool) (r : RNGState) : RNGState :=
  let s := lcg_advance g c (n * stride) r.base
  { base := if rebase then s else r.base, state := s }

/-- The RNG state a rank with work range starting at `w` gives to its
rank-local history `i`: `loop_source` first rebases by `skip_ahead(work_start,
rebase=True)` (`simulator.py:237`), then runs `skip_ahead(i)` before history
`i` (`simulator.py:242`).  `b` is the common base at source-loop entry. -/
def historyInitState (g c stride b w i : ℕ) : ℕ :=
  (skip_ahead g c stride i false (skip_ahead g c stride w true ⟨b, b⟩)).state

/-- The RNG base after the end-of-iteration rebase
`skip_ahead(work_size_total − work_start, rebase=True)` (`simulator.py:174`),
on a rank that entered the iteration with base `b` and rebased to its
`work_start = w`; `W` is `work_size_total`. -/
def iterEndBase (g c stride b w W : ℕ) : ℕ :=
  (skip_ahead g c stride (W - w) true (skip_ahead g c stride w true ⟨b, b⟩)).base

theorem lcg_advance_add (g c m n s : ℕ) :
    lcg_advance g c m (lcg_advance g c n s) = lcg_advance g c (n + m) s := by
  induction n generalizing s with
  | zero => rw [Nat.zero_add]; rfl
  | succ n ih =>
      show lcg_advance g c m (lcg_advance g c n (lcg_step g c s)) = _
      rw [ih, Nat.succ_add]
      rfl

theorem historyInitState_eq (g c stride b w i : ℕ) :
    historyInitState g c stride b w i = lcg_advance g c ((w + i) * stride) b := by
  unfold historyInitState skip_ahead
  simp only [if_true, lcg_advance_add, Nat.add_mul]

/-- **C1.** For every history count and every partition of the histories into
ranks with contiguous index ranges, with fixed seed and stride, the `k`-th
global history begins from the same initial RNG state regardless of the
partition: on any rank whose range starts at `w ≤ k`, rebasing to `w` at
source-loop entry and skipping ahead by the rank-local index `k − w` puts the
RNG at `advance(k · stride)` of the common base, independent of `w`; and the
end-of-iteration skip by `work_size_total − work_start` rebases every rank to
the common base `advance(work_size_total · stride)`. -/
theorem rng_reproducibility (g c stride b w w' W k : ℕ)
    (hw : w ≤ k) (hw' : w' ≤ k) (hW : w ≤ W) :
    historyInitState g c stride b w (k - w) = lcg_advance g c (k * stride) b ∧
    historyInitState g c stride b w' (k - w') = lcg_advance g c (k * stride) b ∧
    iterEndBase g c stride b w W = lcg_advance g c (W * stride) b := by
  refine ⟨?_, ?_, ?_⟩
  · rw [historyInitState_eq, Nat.add_sub_cancel' hw]
  · rw [historyInitState_eq, Nat.add_sub_cancel' hw']
  · unfold iterEndBase skip_ahead
    simp only [if_true, lcg_advance_add, ← Nat.add_mul, Nat.add_sub_cancel' hW]

/-- Witness for `rng_reproducibility`: two ranks whose ranges start at 2 and
at 5 both give global history 7 the initial state `advance(7 · stride)`. -/
theorem rng_reproducibility_witness :
    historyInitState 3 5 11 12345 2 (7 - 2) = lcg_advance 3 5 (7 * 11) 12345 ∧
    historyInitState 3 5 11 12345 5 (7 - 5) = lcg_advance 3 5 (7 * 11) 12345 ∧
    iterEndBase 3 5 11 12345 2 9 = lcg_advance 3 5 (9 * 11) 12345 :=
  rng_reproducibility 3 5 11 12345 2 5 9 7 (by decide) (by decide) (by decide)

/-!
## Event selection and the census event (`Simulator.loop_particle`)
-/

/-- The event constants `EVENT_COLLISION`, `EVENT_SURFACE`, `EVENT_CENSUS`
from `mcdc/constant.py`. -/
inductive MCEvent where
  | collision
  | surfaceHit
  | census
deriving DecidableEq, Repr

/-- Distances are floats that may be `np.inf`; embedded as `WithTop ℚ`. -/
abbrev Dist := WithTop ℚ

/-- The event-choice block of `Simulator.loop_particle`
(`simulator.py:346-354`): start from collision with `d_move = d_coll`,
switch to surface if `d_move > d_surf`, then to census if `d_move > d_census`
(both comparisons strict). -/
def selectEvent (d_coll d_surf d_census : Dist) : MCEvent × Dist :=
  let p1 : MCEvent × Dist := (MCEvent.collision, d_coll)
  let p2 : MCEvent × Dist :=
    if p1.2 > d_surf then (MCEvent.surfaceHit, d_surf) else p1
  if p2.2 > d_census then (MCEvent.census, d_census) else p2

/-- `d_census = P.speed*(t_census - P.time)` (`simulator.py:339-340`), where
`t_census` may be `INF` (= `⊤`): for a particle with positive finite speed a
float times infinity is infinity. -/
def censusDistance (speed time : ℚ) (t_census : Dist) : Dist :=
  match t_census with
  | ⊤ => ⊤
  | (tc : ℚ) => ((speed * (tc - time) : ℚ) : Dist)

/-- The `EVENT_CENSUS` branch of `Simulator.loop_particle`
(`simulator.py:378-389`): move the particle an extra `SMALL * speed`,
increment `time_idx`, append a copy to `bank_stored` when the incremented
index is still below `len(census_time)`, and kill the particle.  Returns the
updated particle and the updated `bank_stored`. -/
def censusEvent (census_time : List Dist) (P : Particle)
    (bank_stored : List Particle) : Particle × List Particle :=
  let P1 := move_particle P (SMALL * P.speed)
  let P2 := { P1 with time_idx := P1.time_idx + 1 }
  let bank := if P2.time_idx < census_time.length
              then bank_stored ++ [P2] else bank_stored
  ({ P2 with alive := false }, bank)

/-- **C4.** At every event selection the step distance is
`min(d_coll, d_surf, d_census)`; on exact ties the earlier event in the order
collision, surface, census wins: whenever `d_coll` attains the minimum the
event is a collision (so a `d_coll = d_surf` tie is a collision), and census
is chosen only when `d_census` is STRICTLY below both other candidates —
never on a tie. -/
theorem event_selection_tie_policy (d_coll d_surf d_census : Dist) :
    (selectEvent d_coll d_surf d_census).2 = min d_coll (min d_surf d_census) ∧
    (d_coll ≤ d_surf → d_coll ≤ d_census →
      (selectEvent d_coll d_surf d_census).1 = MCEvent.collision) ∧
    ((selectEvent d_coll d_surf d_census).1 = MCEvent.census →
      d_census < d_coll ∧ d_census < d_surf) := by
  unfold selectEvent
  dsimp only
  split_ifs with h1 h2 h3
  · -- d_surf < d_coll and d_census < d_surf: census chosen
    refine ⟨?_, ?_, fun _ => ⟨h2.trans h1, h2⟩⟩
    · rw [min_eq_right (le_of_lt h2), min_eq_right (le_of_lt (h2.trans h1))]
    · intro hcs _; exact absurd h1 (not_lt_of_le hcs)
  · -- d_surf < d_coll and d_surf ≤ d_census: surface chosen
    push_neg at h2
    refine ⟨?_, ?_, fun hc => by cases hc⟩
    · rw [min_eq_left h2, min_eq_right (le_of_lt h1)]
    · intro hcs _; exact absurd h1 (not_lt_of_le hcs)
  · -- d_coll ≤ d_surf and d_census < d_coll: census chosen
    push_neg at h1
    refine ⟨?_, ?_, fun _ => ⟨h3, lt_of_lt_of_le h3 h1⟩⟩
    · rw [min_eq_right (le_of_lt (lt_of_lt_of_le h3 h1)),
          min_eq_right (le_of_lt h3)]
    · intro _ hcn; exact absurd h3 (not_lt_of_le hcn)
  · -- d_coll ≤ d_surf and d_coll ≤ d_census: collision chosen
    push_neg at h1 h3
    refine ⟨?_, fun _ _ => rfl, fun hc => by cases hc⟩
    rw [min_eq_left (le_min h1 h3)]

/-- Witness for `event_selection_tie_policy`: on the exact tie
`d_coll = d_surf = 1` with `d_census = 2` the chosen event is a collision
and the step distance is the three-way minimum. -/
theorem event_selection_tie_policy_witness :
    (selectEvent 1 1 2).1 = MCEvent.collision ∧
    (selectEvent 1 1 2).2 = min 1 (min 1 2) :=
  ⟨(event_selection_tie_policy 1 1 2).2.1 le_rfl (by norm_num),
   (event_selection_tie_policy 1 1 2).1⟩

theorem censusEvent_final_bank (census_time : List Dist) (P : Particle)
    (bank : List Particle) (h : ¬ P.time_idx + 1 < census_time.length) :
    (censusEvent census_time P bank).2 = bank := by
  unfold censusEvent move_particle
  simp only [if_neg h]

/-- **C7.** On every census event the particle is moved an extra
`SMALL * speed` across the time boundary, `time_idx` is incremented, a copy
is appended to `bank_stored` exactly when the incremented `time_idx` is still
less than `len(census_time)` (the appended copy carrying the incremented
index and still alive), and the particle itself is killed in every case: the
final census is a terminator, not a survivor. -/
theorem census_event_spec (census_time : List Dist) (P : Particle)
    (bank : List Particle) :
    (censusEvent census_time P bank).1.alive = false ∧
    (censusEvent census_time P bank).1.time_idx = P.time_idx + 1 ∧
    (censusEvent census_time P bank).1.pos =
      P.pos.add (P.dir.smul (SMALL * P.speed)) ∧
    (censusEvent census_time P bank).2 =
      (if P.time_idx + 1 < census_time.length
       then bank ++ [{ (move_particle P (SMALL * P.speed)) with
                       time_idx := P.time_idx + 1 }]
       else bank) ∧
    (¬ P.time_idx + 1 < census_time.length →
      (censusEvent census_time P bank).2 = bank) := by
  exact ⟨rfl, rfl, rfl, rfl, censusEvent_final_bank census_time P bank⟩

/-- A concrete particle used as input in witness statements: at the origin
moving along `x`, group 0, unit weight, in cell 0, before the first census. -/
def sampleParticle : Particle :=
  { pos := ⟨0, 0, 0⟩, dir := ⟨1, 0, 0⟩, g := 0, time := 0, wgt := 1,
    cell := some 0, time_idx := 0, speed := 2 }

/-- Witness for `census_event_spec`: a concrete particle at the final census
(`time_idx = 0`, one census time) is killed, moved, and not banked. -/
theorem census_event_spec_witness :
    ((censusEvent [⊤] sampleParticle []).1.alive = false) ∧
    ((censusEvent [⊤] sampleParticle []).2 = []) := by
  have h := census_event_spec [⊤] sampleParticle []
  exact ⟨h.1, h.2.2.2.2 (by decide)⟩

theorem selectEvent_top_ne_census (dc ds : Dist) :
    (selectEvent dc ds ⊤).1 ≠ MCEvent.census := by
  unfold selectEvent
  dsimp only
  rw [if_neg (not_top_lt)]
  split_ifs <;> intro hc <;> cases hc

/-- The eigenvalue-mode census-time reset in `Simulator.run`
(`simulator.py:120-122`): before the simulation loop, eigenvalue mode
replaces `census_time` by `[INF]`. -/
def runCensusTime (mode_eigenvalue : Bool) (census_time : List Dist) :
    List Dist :=
  if mode_eigenvalue then [⊤] else census_time

/-- **C10.** In eigenvalue mode `run()` replaces `census_time` with `[INF]`
before the simulation loop; consequently the census distance is infinite, a
census event can never be selected (the strict comparison `d_move > ∞` never
holds), and even a census event executed at `time_idx = 0` would be the final
census and bank nothing: `bank_stored` never receives census copies. -/
theorem eigenvalue_no_census_copies (ct : List Dist) (speed time : ℚ)
    (d_coll d_surf : Dist) (P : Particle) (bank : List Particle)
    (hidx : P.time_idx = 0) :
    runCensusTime true ct = [⊤] ∧
    censusDistance speed time ((runCensusTime true ct).getD 0 ⊤) = ⊤ ∧
    (selectEvent d_coll d_surf
        (censusDistance speed time ((runCensusTime true ct).getD 0 ⊤))).1 ≠
      MCEvent.census ∧
    (censusEvent (runCensusTime true ct) P bank).2 = bank := by
  refine ⟨rfl, rfl, ?_, ?_⟩
  · exact selectEvent_top_ne_census d_coll d_surf
  · exact censusEvent_final_bank (runCensusTime true ct) P bank
      (by simp [runCensusTime, hidx])

/-- Witness for `eigenvalue_no_census_copies` at concrete inputs. -/
theorem eigenvalue_no_census_copies_witness :
    (selectEvent 3 7
        (censusDistance 1 0 ((runCensusTime true [(5 : ℚ), ⊤]).getD 0 ⊤))).1 ≠
      MCEvent.census ∧
    (censusEvent (runCensusTime true [(5 : ℚ), ⊤]) sampleParticle []).2
      = [] := by
  have h := eigenvalue_no_census_copies [(5 : ℚ), ⊤] 1 0 3 7
    sampleParticle [] rfl
  exact ⟨h.2.2.1, h.2.2.2⟩

/-!
## Collision physics (`Simulator.collision`, `collision_scattering`,
`collision_fission`, `collision_capture`, `scatter`)
-/

/-- The three outcomes of `Simulator.collision`. -/
inductive CollisionKind where
  | scattering
  | fission
  | capture
deriving DecidableEq, Repr

/-- The branch structure of `Simulator.collision` (`simulator.py:457-475`):
with one RNG draw `u`, set `ξ = u · Σ_T` and choose scattering when
`Σ_S > ξ`, else fission when `Σ_S + Σ_F > ξ`, else capture. -/
def collision_select (SigmaT SigmaS SigmaF u : ℚ) : CollisionKind :=
  let xi := u * SigmaT
  if SigmaS > xi then CollisionKind.scattering
  else if SigmaS + SigmaF > xi then CollisionKind.fission
  else CollisionKind.capture

/-- `Simulator.collision_capture` (`simulator.py:477-478`): kill. -/
def collision_capture (P : Particle) : Particle := { P with alive := false }

/-- **C5.** At every collision of a particle in group `g`, with
`ξ = u · Σ_T(g)` computed from one RNG draw, the particle scatters iff
`ξ < Σ_S(g)`, undergoes fission iff `Σ_S(g) ≤ ξ < Σ_S(g) + Σ_F(g)`, and
otherwise (`Σ_S(g) + Σ_F(g) ≤ ξ`, given a nonnegative fission cross
section) is captured, capture killing the particle. -/
theorem collision_branching (SigmaT SigmaS SigmaF u : ℚ) (P : Particle)
    (hF : 0 ≤ SigmaF) :
    (collision_select SigmaT SigmaS SigmaF u = CollisionKind.scattering ↔
      u * SigmaT < SigmaS) ∧
    (collision_select SigmaT SigmaS SigmaF u = CollisionKind.fission ↔
      SigmaS ≤ u * SigmaT ∧ u * SigmaT < SigmaS + SigmaF) ∧
    (collision_select SigmaT SigmaS SigmaF u = CollisionKind.capture ↔
      SigmaS + SigmaF ≤ u * SigmaT) ∧
    (collision_capture P).alive = false := by
  unfold collision_select collision_capture
  dsimp only
  split_ifs with h1 h2
  · exact ⟨⟨fun _ => h1, fun _ => rfl⟩,
      ⟨(fun hc => nomatch hc), fun hc => absurd h1 (not_lt_of_le hc.1)⟩,
      ⟨(fun hc => nomatch hc), fun hc => absurd h1 (by linarith)⟩, rfl⟩
  · push_neg at h1
    exact ⟨⟨(fun hc => nomatch hc), fun hlt => absurd hlt (not_lt_of_le h1)⟩,
      ⟨fun _ => ⟨h1, h2⟩, fun _ => rfl⟩,
      ⟨(fun hc => nomatch hc), fun hle => absurd h2 (not_lt_of_le hle)⟩, rfl⟩
  · push_neg at h1 h2
    exact ⟨⟨(fun hc => nomatch hc), fun hlt => absurd hlt (not_lt_of_le h1)⟩,
      ⟨(fun hc => nomatch hc), fun hc => absurd hc.2 (not_lt_of_le h2)⟩,
      ⟨fun _ => h2, fun _ => rfl⟩, rfl⟩

/-- Witness for `collision_branching` at `Σ_T = 3, Σ_S = 1, Σ_F = 1` and the
draw `u = 1/2` (so `ξ = 3/2`): the fission window `1 ≤ 3/2 < 2` is hit. -/
theorem collision_branching_witness :
    collision_select 3 1 1 (1 / 2) = CollisionKind.fission ∧
    (collision_capture sampleParticle).alive = false :=
  ⟨((collision_branching 3 1 1 (1 / 2) sampleParticle
      (by norm_num)).2.1).mpr (by norm_num),
   (collision_branching 3 1 1 (1 / 2) sampleParticle (by norm_num)).2.2.2⟩

/-- A unit direction vector: `x² + y² + z² = 1`. -/
def Point.isUnit (d : Point) : Prop := d.x ^ 2 + d.y ^ 2 + d.z ^ 2 = 1

instance (d : Point) : Decidable d.isUnit := by
  unfold Point.isUnit
  infer_instance

/-- The branch condition of `Simulator.scatter` (`simulator.py:510`): the
general rotation formula is used when `P.dir.z != 1.0`; only the exact value
`1.0` selects the y/z-swapped branch of `simulator.py:519-525`. -/
def scatterTakesSwap (d : Point) : Bool := d.z == 1

/-- The square of the divisor `B = (1.0 - P.dir.z**2)**0.5` of the general
branch (`simulator.py:511`).  `B` is the real square root of this quantity,
so for `B² ≥ 0` the division `Ac/B` divides by zero exactly when this is
zero. -/
def scatterGeneralBsq (d : Point) : ℚ := 1 - d.z ^ 2

/-- The square of the divisor `B = (1.0 - P.dir.y**2)**0.5` of the swapped
branch (`simulator.py:520`). -/
def scatterSwapBsq (d : Point) : ℚ := 1 - d.y ^ 2

/-- The final direction computed by `Simulator.scatter`
(`simulator.py:508-527`), with the irrational intermediates `cos_azi`,
`sin_azi`, `Ac = √(1−μ²)` and `B` (the square root of the branch's `Bsq`)
passed in as scalars: the general branch when `dir.z ≠ 1`, the y/z-swapped
branch when `dir.z = 1`. -/
def scatterDir (d : Point) (mu cos_azi sin_azi Ac B : ℚ) : Point :=
  if d.z ≠ 1 then
    { x := d.x * mu + (d.x * d.z * cos_azi - d.y * sin_azi) * (Ac / B),
      y := d.y * mu + (d.y * d.z * cos_azi + d.x * sin_azi) * (Ac / B),
      z := d.z * mu - cos_azi * Ac * B }
  else
    { x := d.x * mu + (d.x * d.y * cos_azi - d.z * sin_azi) * (Ac / B),
      z := d.z * mu + (d.z * d.y * cos_azi + d.x * sin_azi) * (Ac / B),
      y := d.y * mu - cos_azi * Ac * B }

/-- **C2 counterexample.** The claim asserts the swap branch fires whenever
`|dir.z| = 1`.  At the unit direction `(0, 0, −1)` we have `|dir.z| = 1`,
yet the source condition `P.dir.z != 1.0` holds, so the GENERAL branch is
taken — and its divisor `B = √(1 − dir.z²) = √0 = 0`: the division `Ac/B`
is a division by zero. -/
theorem scatter_guard_counterexample :
    (Point.mk 0 0 (-1)).isUnit ∧
    |(Point.mk 0 0 (-1)).z| = 1 ∧
    scatterTakesSwap (Point.mk 0 0 (-1)) = false ∧
    scatterGeneralBsq (Point.mk 0 0 (-1)) = 0 := by
  refine ⟨by norm_num [Point.isUnit], by norm_num,
    by norm_num [scatterTakesSwap], by norm_num [scatterGeneralBsq]⟩

/-- **C2 (amended).** The singularity guard of `Simulator.scatter` covers
only `dir.z = +1` exactly: the swap branch is taken iff `dir.z = 1`, and
there (for a unit direction) its divisor `√(1 − dir.y²)` equals `√1 ≠ 0`;
in the general branch the divisor `B = √(1 − dir.z²)` is zero iff
`dir.z = −1`, so the division by `B` is a division by zero exactly at
`dir = (0, 0, −1)`-type directions, which the guard does not exclude. -/
theorem scatter_guard_amended (d : Point) (hd : d.isUnit) :
    (scatterTakesSwap d = true ↔ d.z = 1) ∧
    (d.z = 1 → scatterSwapBsq d = 1) ∧
    (scatterTakesSwap d = false → (scatterGeneralBsq d = 0 ↔ d.z = -1)) := by
  unfold Point.isUnit at hd
  unfold scatterTakesSwap scatterSwapBsq scatterGeneralBsq
  refine ⟨beq_iff_eq, fun hz => ?_, fun hz => ?_⟩
  · have hy : d.y ^ 2 = 0 := by nlinarith [sq_nonneg d.x, sq_nonneg d.y]
    rw [hy]; norm_num
  · have hz' : d.z ≠ 1 := by
      intro h
      rw [h] at hz
      simp at hz
    constructor
    · intro h0
      have : (d.z - 1) * (d.z + 1) = 0 := by ring_nf; linarith
      rcases mul_eq_zero.mp this with h | h
      · exact absurd (by linarith : d.z = 1) hz'
      · linarith
    · intro h; rw [h]; norm_num

/-- Witness for `scatter_guard_amended` at the unit direction `(0, 0, 1)`:
the swap branch fires and its divisor squared is 1. -/
theorem scatter_guard_amended_witness :
    scatterTakesSwap (Point.mk 0 0 1) = true ∧
    scatterSwapBsq (Point.mk 0 0 1) = 1 :=
  ⟨(scatter_guard_amended (Point.mk 0 0 1) (by norm_num [Point.isUnit])).1.mpr
     rfl,
   (scatter_guard_amended (Point.mk 0 0 1) (by norm_num [Point.isUnit])).2.1
     rfl⟩

/-!
## Surface hits and cell resolution (`Simulator.surface_hit`,
`Simulator.set_cell`)

A cell is represented by its `test_point` predicate; the cell list of the
simulator becomes a list of such predicates, and a particle's resolved cell
is the index of the first match, as in the first-match loop of `set_cell`.
The `sys.exit()` on a lost particle is embedded as `Except.error` carrying
the printed diagnostic.
-/

/-- The diagnostic printed by `Simulator.set_cell` on a lost particle
(`simulator.py:279`): `"ERROR: A particle is lost at " + str(pos)`.  It is a
function of the position alone. -/
def lostMessage (pos : Point) : String :=
  "ERROR: A particle is lost at " ++ toString pos.x ++ " " ++
    toString pos.y ++ " " ++ toString pos.z

/-- `Simulator.set_cell` (`simulator.py:271-282`): first-match point-in-cell
search over the cell list; no match prints the lost-particle diagnostic and
exits. -/
def set_cell (cells : List (Point → Bool)) (P : Particle) :
    Except String Particle :=
  match cells.findIdx? (fun cell => cell P.pos) with
  | some i => Except.ok { P with cell := some i }
  | none => Except.error (lostMessage P.pos)

/-- `Simulator.surface_hit` (`simulator.py:446-455`): apply the hit
surface's boundary condition `bc`, move the particle by the `SMALL` kick
(unconditionally), and only then, if still alive, re-resolve the cell. -/
def surface_hit (cells : List (Point → Bool)) (bc : Particle → Particle)
    (P : Particle) : Except String Particle :=
  let P1 := bc P
  let P2 := move_particle P1 SMALL
  if P2.alive then set_cell cells P2 else Except.ok P2

/-- The `EVENT_SURFACE` dispatch of `Simulator.loop_particle`
(`simulator.py:371-376`): record the hit surface `S` on the particle, then
run `surface_hit`. -/
def surfaceEventDispatch (cells : List (Point → Bool))
    (bc : Particle → Particle) (S : ℕ) (P : Particle) :
    Except String Particle :=
  surface_hit cells bc { P with surf := some S }

/-- A vacuum boundary condition (modelled from the spec §6: `vacuum` sets
`alive = false`). -/
def vacuumBC (P : Particle) : Particle := { P with alive := false }

/-- **C3 counterexample.** The claim says a particle killed by a vacuum BC
is not moved further.  But `surface_hit` applies the `SMALL` kick before
checking `alive`: the sample particle at the origin, killed by the vacuum
BC, still ends at `x = SMALL ≠ 0`. -/
theorem surface_hit_kick_counterexample :
    surface_hit [] vacuumBC sampleParticle =
      Except.ok (move_particle (vacuumBC sampleParticle) SMALL) ∧
    (vacuumBC sampleParticle).alive = false ∧
    (move_particle (vacuumBC sampleParticle) SMALL).pos.x = SMALL ∧
    sampleParticle.pos.x = 0 ∧ (SMALL : ℚ) ≠ 0 := by
  refine ⟨rfl, rfl, ?_, rfl, by norm_num [SMALL]⟩
  show (0 : ℚ) + 1 * SMALL = SMALL
  ring

/-- **C3 (amended).** On every surface event the hit surface is recorded
and its boundary condition applied; the `eps_kick` nudge along the
(possibly reflected) direction is applied UNCONDITIONALLY — even to a
particle killed by a vacuum BC — and only the cell re-resolution is guarded
by `alive` (a killed particle's cell is left untouched); when the particle
is alive the cell is re-resolved by a first-match point-in-cell search over
the cell list, resolution failure being fatal. -/
theorem surface_hit_amended (cells : List (Point → Bool))
    (bc : Particle → Particle) (S : ℕ) (P : Particle) :
    (let Pr : Particle := { P with surf := some S }
     let Pk : Particle := move_particle (bc Pr) SMALL
     (Pr.surf = some S) ∧
     (Pk.pos = (bc Pr).pos.add ((bc Pr).dir.smul SMALL)) ∧
     ((bc Pr).alive = false →
        surfaceEventDispatch cells bc S P = Except.ok Pk ∧
        Pk.cell = (bc Pr).cell) ∧
     ((bc Pr).alive = true →
        surfaceEventDispatch cells bc S P = set_cell cells Pk) ∧
     ((bc Pr).alive = true →
        cells.findIdx? (fun cell => cell Pk.pos) = none →
        surfaceEventDispatch cells bc S P =
          Except.error (lostMessage Pk.pos))) := by
  intro Pr Pk
  have halive : Pk.alive = (bc Pr).alive := rfl
  have hdisp : surfaceEventDispatch cells bc S P =
      if Pk.alive then set_cell cells Pk else Except.ok Pk := rfl
  refine ⟨rfl, rfl, fun hdead => ⟨?_, rfl⟩, fun halv => ?_, fun halv hnone => ?_⟩
  · rw [hdisp, halive, hdead]
    rfl
  · rw [hdisp, halive, halv]
    rfl
  · rw [hdisp, halive, halv]
    show set_cell cells Pk = _
    unfold set_cell
    rw [hnone]

/-- Witness for `surface_hit_amended`: a transmission (identity) boundary
condition on an empty cell list is fatal — the survivor cannot be placed in
any cell. -/
theorem surface_hit_amended_witness :
    surfaceEventDispatch [] id 4 sampleParticle =
      Except.error
        (lostMessage (move_particle { sampleParticle with surf := some 4 }
          SMALL).pos) :=
  (surface_hit_amended [] id 4 sampleParticle).2.2.2.2 rfl rfl

/-- A lost particle used in the C9 counterexample: same position as
`sampleParticle` but a different group and census index. -/
def lostVariantParticle : Particle :=
  { sampleParticle with g := 5, time_idx := 3 }

/-- **C9 counterexample.** The claim says the lost-particle diagnostic logs
`pos`, the group `g` and the history index.  Two lost particles at the same
position but with different groups (and different census indices) produce
the IDENTICAL diagnostic, and `set_cell` is not even passed a history
index: only the position is logged. -/
theorem lost_particle_log_counterexample :
    set_cell [] sampleParticle =
      Except.error (lostMessage sampleParticle.pos) ∧
    set_cell [] lostVariantParticle =
      Except.error (lostMessage sampleParticle.pos) ∧
    sampleParticle.g ≠ lostVariantParticle.g := by
  refine ⟨rfl, rfl, by decide⟩

/-- **C9 (amended).** Whenever cell resolution finds no cell containing the
particle's position (equivalently: the first-match search fails), the
simulator treats it as fatal — it prints a diagnostic containing the
position `pos` (and nothing else: not the group, not the history index) and
exits rather than continuing the history. -/
theorem lost_particle_fatal_amended (cells : List (Point → Bool))
    (P : Particle) (h : ∀ cell ∈ cells, cell P.pos = false) :
    cells.findIdx? (fun cell => cell P.pos) = none ∧
    set_cell cells P = Except.error (lostMessage P.pos) ∧
    (∀ Q : Particle, Q.pos = P.pos → lostMessage Q.pos = lostMessage P.pos) := by
  have hnone : cells.findIdx? (fun cell => cell P.pos) = none := by
    rw [List.findIdx?_eq_none_iff]
    intro c hc
    simpa using h c hc
  refine ⟨hnone, ?_, fun Q hQ => by rw [hQ]⟩
  unfold set_cell
  rw [hnone]

/-- Witness for `lost_particle_fatal_amended`: with no cells at all, the
sample particle is lost and the diagnostic names its position. -/
theorem lost_particle_fatal_amended_witness :
    set_cell [] sampleParticle =
      Except.error (lostMessage sampleParticle.pos) :=
  (lost_particle_fatal_amended [] sampleParticle (by simp)).2.1

/-!
## Fission (`Simulator.collision_fission`)
-/

/-- The cumulative-sum group-sampling loop of `simulator.py:546-550`
(also `simulator.py:487-491`): walk the outgoing-group differential cross
sections accumulating `tot`, stopping at the first group with `tot > ξ`;
when no partial sum exceeds `ξ` the loop leaves the LAST group index
(`G − 1`) in place.  (An empty list would be a `NameError` in the source;
group structures always have `G ≥ 1`.) -/
def sampleGroupAux (xi tot : ℚ) (g : ℕ) : List ℚ → ℕ
  | [] => g
  | [_] => g
  | d :: rest => if tot + d > xi then g else sampleGroupAux xi (tot + d) (g + 1) rest

/-- Sample an outgoing group from differential cross sections `diff` with
threshold `ξ`, as the loops at `simulator.py:487-491` and `546-550` do. -/
def sampleGroup (xi : ℚ) (diff : List ℚ) : ℕ := sampleGroupAux xi 0 0 diff

/-- `Simulator.collision_fission` (`simulator.py:529-557`): kill the
particle, sample `N = ⌊ν/k_eff + u⌋` progeny, and bank each with a freshly
sampled outgoing group (one draw), a freshly sampled isotropic direction
(two draws, `DistPointIsotropic` modelled from the spec §4.2 as a function
of its two draws), and the parent's `pos`, `time`, `wgt`, `cell` and
`time_idx`.  `u` is the RNG draw stream for this event, consumed in source
order: draw 0 for `N`, then draws `1+3n`, `2+3n`, `3+3n` for progeny `n`. -/
def collision_fission (SigmaF : ℚ) (SigmaF_diff : List ℚ) (nu k_eff : ℚ)
    (isoDir : ℚ → ℚ → Point) (u : ℕ → ℚ) (P : Particle) :
    Particle × List Particle :=
  let N := (Int.floor (nu / k_eff + u 0)).toNat
  let bank := (List.range N).map (fun n =>
    let xi := u (1 + 3 * n) * SigmaF
    let g_out := sampleGroup xi SigmaF_diff
    let dir := isoDir (u (2 + 3 * n)) (u (3 + 3 * n))
    Particle.create P.pos dir g_out P.time P.wgt P.cell P.time_idx)
  ({ P with alive := false }, bank)

/-- **C6.** On every fission event the colliding particle is killed, the
number of progeny is `N = ⌊ν(g)/k_eff + u⌋` for one RNG draw `u` (the count
being nonnegative), and each of the `N` progeny is pushed to `bank_fission`
with a freshly sampled outgoing group (cumulative over `Σ_F→g'`), a freshly
sampled isotropic direction, and the parent's position, time, weight, cell
and `time_idx` inherited unchanged (each progeny being born alive). -/
theorem fission_event_spec (SigmaF : ℚ) (SigmaF_diff : List ℚ)
    (nu k_eff : ℚ) (isoDir : ℚ → ℚ → Point) (u : ℕ → ℚ) (P : Particle)
    (h : 0 ≤ nu / k_eff + u 0) :
    ((collision_fission SigmaF SigmaF_diff nu k_eff isoDir u P).1.alive
      = false) ∧
    (((collision_fission SigmaF SigmaF_diff nu k_eff isoDir u P).2.length : ℤ)
      = Int.floor (nu / k_eff + u 0)) ∧
    (∀ q ∈ (collision_fission SigmaF SigmaF_diff nu k_eff isoDir u P).2,
      q.pos = P.pos ∧ q.time = P.time ∧ q.wgt = P.wgt ∧ q.cell = P.cell ∧
      q.time_idx = P.time_idx ∧ q.alive = true) ∧
    (∀ n, (hn : n <
        (collision_fission SigmaF SigmaF_diff nu k_eff isoDir u P).2.length) →
      ((collision_fission SigmaF SigmaF_diff nu k_eff isoDir u P).2.get
          ⟨n, hn⟩).g = sampleGroup (u (1 + 3 * n) * SigmaF) SigmaF_diff ∧
      ((collision_fission SigmaF SigmaF_diff nu k_eff isoDir u P).2.get
          ⟨n, hn⟩).dir = isoDir (u (2 + 3 * n)) (u (3 + 3 * n))) := by
  unfold collision_fission
  dsimp only
  refine ⟨rfl, ?_, ?_, ?_⟩
  · rw [List.length_map, List.length_range,
      Int.toNat_of_nonneg (Int.le_floor.mpr (by simpa using h))]
  · intro q hq
    rcases List.mem_map.mp hq with ⟨n, _, rfl⟩
    exact ⟨rfl, rfl, rfl, rfl, rfl, rfl⟩
  · intro n hn
    constructor <;>
      simp [List.get_eq_getElem, List.getElem_map, List.getElem_range,
        Particle.create]

/-- Witness for `fission_event_spec`: with `ν = 2`, `k_eff = 1` and the
constant draw stream `u ≡ 1/2`, `N = ⌊5/2⌋ = 2` progeny are banked and the
parent is killed. -/
theorem fission_event_spec_witness :
    ((collision_fission 1 [1] 2 1 (fun _ _ => ⟨0, 0, 1⟩)
        (fun _ => 1 / 2) sampleParticle).1.alive = false) ∧
    (((collision_fission 1 [1] 2 1 (fun _ _ => ⟨0, 0, 1⟩)
        (fun _ => 1 / 2) sampleParticle).2.length : ℤ)
      = Int.floor ((2 : ℚ) / 1 + 1 / 2)) := by
  have h := fission_event_spec 1 [1] 2 1 (fun _ _ => ⟨0, 0, 1⟩)
    (fun _ => 1 / 2) sampleParticle (by norm_num)
  exact ⟨h.1, h.2.1⟩

/-!
## The eigenvalue accumulator and the `k_eff` update
(`Simulator.loop_particle` scores, `Simulator.run` closeout)
-/

/-- The per-group data the eigenvalue score reads from the material of the
particle's shadow cell: `ν` and `Σ_F` per group (the cross-section container
is an external collaborator; modelled from the spec §3). -/
structure Material where
  nu : List ℚ
  SigmaF : List ℚ

/-- The eigenvalue score of `Simulator.loop_particle`
(`simulator.py:399-406`): with `mat` the material of `P.cell_old`, add
`wgt_old · distance · (ν[g_old] · Σ_F[g_old])` to the accumulator. -/
def scoreEigenvalue (mat : Material) (P : Particle) (acc : ℚ) : ℚ :=
  let wgt := P.wgt_old
  let nu := mat.nu.getD P.g_old 0
  let SigmaF := mat.SigmaF.getD P.g_old 0
  let nuSigmaF := nu * SigmaF
  acc + wgt * P.distance * nuSigmaF

/-- `mcdc.mpi.allreduce` on the scalar accumulator (modelled from the spec
§5: the reduction is the associative sum of the per-rank values). -/
def allreduceSum (rankValues : List ℚ) : ℚ := rankValues.sum

/-- The `k_eff` update and accumulator reset of `Simulator.run`
(`simulator.py:144-153`): `k_eff := allreduce(nuSigmaF_sum) /
work_size_total`, then `nuSigmaF_sum := 0`.  Returns the new `k_eff` and
the reset accumulator. -/
def eigUpdateKeff (rankSums : List ℚ) (N_total : ℚ) : ℚ × ℚ :=
  (allreduceSum rankSums / N_total, 0)

/-- **C8.** In k-eigenvalue mode the accumulator is incremented at every
step by `w_old · distance · ν(g_old) · Σ_F(g_old)` taken from the shadow
(pre-move) state — `save_previous_state` captures weight, group and cell at
step entry and the move leaves the shadow untouched — and after each source
loop `k_eff` is set to the globally reduced accumulator divided by the total
history count, after which the accumulator is reset to zero. -/
theorem eigenvalue_accumulator_spec (mat : Material) (P : Particle)
    (acc : ℚ) (rankSums : List ℚ) (N_total : ℚ) :
    (scoreEigenvalue mat P acc =
      acc + P.wgt_old * P.distance *
        (mat.nu.getD P.g_old 0) * (mat.SigmaF.getD P.g_old 0)) ∧
    (P.save_previous_state.wgt_old = P.wgt ∧
     P.save_previous_state.g_old = P.g ∧
     P.save_previous_state.cell_old = P.cell) ∧
    (∀ (Q : Particle) (d : ℚ),
      (move_particle Q d).wgt_old = Q.wgt_old ∧
      (move_particle Q d).g_old = Q.g_old ∧
      (move_particle Q d).cell_old = Q.cell_old) ∧
    ((eigUpdateKeff rankSums N_total).1 = rankSums.sum / N_total ∧
     (eigUpdateKeff rankSums N_total).2 = 0) := by
  refine ⟨?_, ⟨rfl, rfl, rfl⟩, fun Q d => ⟨rfl, rfl, rfl⟩, rfl, rfl⟩
  unfold scoreEigenvalue
  ring

end MCDC
